import Mathlib

/-!
Verification of the caption/format engine of VideoExtractMCP.

This file shallowly embeds the pure logic of `src/utils.py` and the
control flow of the tool functions in `src/server.py`:

* `get_format_dimensions` (dimension resolution, `utils.py:47-73`),
* the greedy word wrap, karaoke timing and three-layer drawtext plan of
  `build_drawtext_filters` (`utils.py:125-263`),
* `build_crossfade_concat` (`utils.py:75-105`),
* `_escape_drawtext` (`utils.py:118-123`),
* the try/except structure of `extract_clip` and `create_supercut`
  (`server.py:74-186`).

Modelling conventions:

* Python `float` arithmetic is modelled by exact rational arithmetic (`ℚ`);
  `int(x)` on a float is truncation toward zero (`Int.tdiv` on the
  numerator/denominator of the exact rational).
* Python exceptions are modelled with `Except`: a raised exception is an
  `Except.error`; `try/except ffmpeg.Error` catches only the
  `Exn.ffmpegError` constructor.
* Python strings are modelled as `String` / `List Char`; `str.split`,
  `str.strip` and `int()` parsing are re-implemented structurally below
  (restricted to ASCII whitespace and plain optionally-signed digit
  literals, which is the fragment the repository exercises).
* The ffmpeg stream object is modelled as the list of filter operations
  applied to it, in application order.
-/

deriving instance DecidableEq for Except

namespace VideoExtract

/-- Exceptions that the modelled Python code can raise. -/
inductive Exn where
  | valueError (msg : String)
  | zeroDivisionError
  | ffmpegError (msg : String)
deriving DecidableEq, Repr

/-- Fold a digit list into the natural number it denotes (base 10). -/
def digitsToNat (cs : List Char) : ℕ :=
  cs.foldl (fun a c => a * 10 + (c.toNat - 48)) 0

/-- Parse a non-empty all-digit character list. -/
def parseDigits (cs : List Char) : Option ℕ :=
  if cs ≠ [] ∧ cs.all Char.isDigit then some (digitsToNat cs) else none

/-- Python `int(s)` on an optionally-signed decimal literal; `none` models the
`ValueError` that `int` raises on any other input. -/
def pyIntChars : List Char → Option ℤ
  | '-' :: rest => (parseDigits rest).map (fun n => -(n : ℤ))
  | '+' :: rest => (parseDigits rest).map (fun n => (n : ℤ))
  | cs => (parseDigits cs).map (fun n => (n : ℤ))

/-- Python `s.split(sep)` for the one-character separator `:` — keeps empty
pieces, so `"a:b:c"` gives three parts and `""` gives one empty part. -/
def splitColon : List Char → List (List Char)
  | [] => [[]]
  | c :: cs =>
    match splitColon cs with
    | [] => [[c]]
    | h :: t => if c = ':' then [] :: h :: t else (c :: h) :: t

/-- Python truthiness of the `custom_ratio` argument: `None` and `""` are
falsy, every other string is truthy. -/
def truthy : Option String → Bool
  | none => false
  | some s => s ≠ ""

/-- Round an integer down to the nearest even integer, as computed by
`w - w % 2` in Python (`%` is Euclidean for a positive modulus). -/
def evenize (n : ℤ) : ℤ := n - n % 2

/-- Dimension computation of the `custom` branch of `get_format_dimensions`
(`utils.py:59-72`) for a truthy ratio string: split on `:`, require exactly
two parts, parse both with `int`, then anchor on `rw >= rh`.  A division by
a zero component is Python's `ZeroDivisionError`. -/
def customDims (r : String) : Except Exn (Option (ℤ × ℤ)) :=
  match splitColon r.data with
  | [p0, p1] =>
    match pyIntChars p0, pyIntChars p1 with
    | some rw, some rh =>
      if rh ≤ rw then
        if rw = 0 then .error .zeroDivisionError
        else .ok (some (evenize 1080, evenize (Int.tdiv (1080 * rh) rw)))
      else
        if rh = 0 then .error .zeroDivisionError
        else .ok (some (evenize (Int.tdiv (1920 * rw) rh), evenize 1920))
    | _, _ => .error (.valueError "invalid literal for int with base 10")
  | _ => .error (.valueError ("Invalid ratio format " ++ r ++ ", expected W:H e.g. 4:5"))

/-- `get_format_dimensions` (`utils.py:47-73`). `ok none` models the Python
`None` return (no resize); note that a missing or empty `custom_ratio` with
format `custom` falls through to the final `return None`. -/
def get_format_dimensions (output_format : String) (custom_ratio : Option String) :
    Except Exn (Option (ℤ × ℤ)) :=
  if output_format = "original" then .ok none
  else if output_format = "short" then .ok (some (1080, 1920))
  else if output_format = "square" then .ok (some (1080, 1080))
  else if output_format = "custom" ∧ truthy custom_ratio = true then
    match custom_ratio with
    | some r => customDims r
    | none => .ok none
  else .ok none

/-- Python truncation `int(x)` of an exact rational toward zero. -/
def ratTrunc (q : ℚ) : ℤ := Int.tdiv q.num (q.den : ℤ)

/-- Python `s.strip()`: drop leading and trailing whitespace. -/
def pyStrip (cs : List Char) : List Char :=
  ((cs.dropWhile Char.isWhitespace).reverse.dropWhile Char.isWhitespace).reverse

/-- Helper for `pyWords`: the accumulator holds the current word reversed. -/
def pyWordsAux : List Char → List Char → List (List Char)
  | [], acc => if acc = [] then [] else [acc.reverse]
  | c :: cs, acc =>
    if c.isWhitespace then
      if acc = [] then pyWordsAux cs [] else acc.reverse :: pyWordsAux cs []
    else pyWordsAux cs (c :: acc)

/-- Python `s.split()` with no separator: whitespace-delimited words, with no
empty pieces. -/
def pyWords (cs : List Char) : List (List Char) := pyWordsAux cs []

/-- Python `' '.join(words)` on character lists. -/
def joinSpace : List (List Char) → List Char
  | [] => []
  | [w] => w
  | w :: ws => w ++ ' ' :: joinSpace ws

/-- `_escape_drawtext` (`utils.py:118-123`): three successive `str.replace`
passes.  `replaceChar c r` is `str.replace` for the one-character pattern
`c` and replacement `r`. -/
def replaceChar (c : Char) (r : List Char) : List Char → List Char
  | [] => []
  | x :: xs => (if x = c then r else [x]) ++ replaceChar c r xs

/-- `_escape_drawtext`: double backslashes, then backslash-prefix colons, then
replace ASCII apostrophes by the right single quotation mark U+2019. -/
def escape_drawtext (cs : List Char) : List Char :=
  replaceChar '\'' ['’'] (replaceChar ':' ['\\', ':'] (replaceChar '\\' ['\\', '\\'] cs))

/-- `avg_char_w = font_size * 0.55` (`utils.py:154`), with the float constant
read as the exact rational it denotes in the source text. -/
def avgCharW (fs : ℤ) : ℚ := (fs : ℚ) * (55 / 100)

/-- `space_w = font_size * 0.28` (`utils.py:155`). -/
def spaceW (fs : ℤ) : ℚ := (fs : ℚ) * (28 / 100)

/-- Estimated width of one word: `len(word) * avg_char_w` (`utils.py:183`). -/
def wordWidth (fs : ℤ) (w : List Char) : ℚ := (w.length : ℚ) * avgCharW fs

/-- Estimated width of a whole line:
`sum(len(w) * avg_char_w for w in line) + max(0, len(line) - 1) * space_w`
(`utils.py:222`); this is also the quantity the wrap loop tracks in
`current_w`. -/
def lineWidth (fs : ℤ) (l : List (List Char)) : ℚ :=
  (l.map (wordWidth fs)).sum + ((l.length - 1 : ℕ) : ℚ) * spaceW fs

/-- One iteration of the greedy wrap loop (`utils.py:182-191`).  The state is
`(lines, current_line, current_w)`. -/
def wrapStep (fs : ℤ) (maxW : ℚ) (st : List (List (List Char)) × List (List Char) × ℚ)
    (word : List Char) : List (List (List Char)) × List (List Char) × ℚ :=
  let wordW := wordWidth fs word
  let needed := wordW + (if st.2.1 = [] then 0 else spaceW fs)
  if maxW < st.2.2 + needed ∧ st.2.1 ≠ [] then
    (st.1 ++ [st.2.1], [word], wordW)
  else
    (st.1, st.2.1 ++ [word], st.2.2 + needed)

/-- The greedy word wrap of `build_drawtext_filters` (`utils.py:179-193`). -/
def wrapLines (fs : ℤ) (maxW : ℚ) (words : List (List Char)) : List (List (List Char)) :=
  let st := words.foldl (wrapStep fs maxW) ([], [], 0)
  if st.2.1 = [] then st.1 else st.1 ++ [st.2.1]

/-- The `caption_style` dictionary (`utils.py:135-152`): every key optional. -/
structure CaptionStyle where
  font_size : Option ℤ := none
  font_color : Option String := none
  highlight_color : Option String := none
  bg_color : Option String := none
  pos : Option String := none
  karaoke : Option Bool := none

/-- `style.get('font_size', max(16, int(video_height / 35)))` (`utils.py:147`);
`video_height / 35` is float division truncated by `int`. -/
def resolveFontSize (st : CaptionStyle) (videoHeight : ℤ) : ℤ :=
  st.font_size.getD (max 16 (ratTrunc ((videoHeight : ℚ) / 35)))

/-- `style.get('karaoke', True)` (`utils.py:152`). -/
def resolveKaraoke (st : CaptionStyle) : Bool := st.karaoke.getD true

/-- The vertical anchor (`utils.py:163-168`). -/
def yAnchor (st : CaptionStyle) (videoHeight : ℤ) : ℤ :=
  if st.pos.getD "bottom" = "top" then ratTrunc ((videoHeight : ℚ) * (8 / 100))
  else if st.pos.getD "bottom" = "center" then ratTrunc ((videoHeight : ℚ) * (45 / 100))
  else ratTrunc ((videoHeight : ℚ) * (75 / 100))

/-- `line_height = int(font_size * 1.6)` (`utils.py:156`). -/
def lineHeight (fs : ℤ) : ℤ := ratTrunc ((fs : ℚ) * (16 / 10))

/-- `text_h_est = int(font_size * 1.15)` (`utils.py:159`). -/
def textHEst (fs : ℤ) : ℤ := ratTrunc ((fs : ℚ) * (115 / 100))

/-- One timed caption (`{"start": .., "end": .., "text": ..}`); the `end`
field is called `stop` because `end` is a Lean keyword. -/
structure Caption where
  start : ℚ
  stop : ℚ
  text : String
deriving DecidableEq

/-- A drawing operation appended to the video stream by
`build_drawtext_filters`; the three constructors are the background-box
drawtext of layer 1, the highlight drawbox of layer 2 and the visible-text
drawtext of layer 3, each carrying the fields the source computes for it. -/
inductive FilterOp where
  | bgBox (text : List Char) (fontsize : ℤ) (y : ℤ) (enterT leaveT : ℚ)
  | hlBox (x y boxW boxH : ℤ) (enterT leaveT : ℚ)
  | fgText (text : List Char) (fontsize : ℤ) (y : ℤ) (enterT leaveT : ℚ)
deriving DecidableEq, Repr

/-- Recogniser for layer-2 highlight drawbox operations. -/
def FilterOp.isHlBox : FilterOp → Bool
  | .hlBox _ _ _ _ _ _ => true
  | _ => false

/-- Recogniser for layer-1 background drawtext operations. -/
def FilterOp.isBgBox : FilterOp → Bool
  | .bgBox _ _ _ _ _ => true
  | _ => false

/-- Recogniser for layer-3 visible-text drawtext operations. -/
def FilterOp.isFgText : FilterOp → Bool
  | .fgText _ _ _ _ _ => true
  | _ => false

/-- The text carried by a drawtext operation (layers 1 and 3). -/
def FilterOp.textOf : FilterOp → Option (List Char)
  | .bgBox t _ _ _ _ => some t
  | .hlBox _ _ _ _ _ _ => none
  | .fgText t _ _ _ _ => some t

/-- Active-time window of word `i` out of `N` under the uniform karaoke
division (`utils.py:228-229`):
`ws = start + (word_idx / total_words) * duration` and
`we = start + ((word_idx + 1) / total_words) * duration`. -/
def wordWindow (start stop : ℚ) (N i : ℕ) : ℚ × ℚ :=
  (start + ((i : ℚ) / (N : ℚ)) * (stop - start),
   start + (((i : ℚ) + 1) / (N : ℚ)) * (stop - start))

/-- Layer 1 (`utils.py:199-215`): one invisible-text background-box drawtext
per wrapped line, at `y = y_anchor + li * line_height`, enabled on
`[start, stop]`. -/
def bgOps (fs yA lineH : ℤ) (start stop : ℚ) : ℕ → List (List (List Char)) → List FilterOp
  | _, [] => []
  | li, lw :: rest =>
    .bgBox (escape_drawtext (joinSpace lw)) fs (yA + (li : ℤ) * lineH) start stop
      :: bgOps fs yA lineH start stop (li + 1) rest

/-- Layer 3 (`utils.py:246-261`): one visible-text drawtext per wrapped line. -/
def fgOps (fs yA lineH : ℤ) (start stop : ℚ) : ℕ → List (List (List Char)) → List FilterOp
  | _, [] => []
  | li, lw :: rest =>
    .fgText (escape_drawtext (joinSpace lw)) fs (yA + (li : ℤ) * lineH) start stop
      :: fgOps fs yA lineH start stop (li + 1) rest

/-- Layer 2, inner loop over one line's words (`utils.py:226-243`): one
drawbox per word; `cur_x` advances by `word_w + space_w` and `word_idx` by 1. -/
def lineHlOps (fs : ℤ) (start stop : ℚ) (N : ℕ) (y : ℤ) :
    ℚ → ℕ → List (List Char) → List FilterOp
  | _, _, [] => []
  | curX, wordIdx, w :: ws =>
    .hlBox (ratTrunc (curX - 5)) (y - 5) (ratTrunc (wordWidth fs w + 2 * 5))
        (textHEst fs + 2 * 5) (wordWindow start stop N wordIdx).1
        (wordWindow start stop N wordIdx).2
      :: lineHlOps fs start stop N y (curX + wordWidth fs w + spaceW fs) (wordIdx + 1) ws

/-- Layer 2, outer loop over lines (`utils.py:220-243`): per line the start x
is `max(box_pad, int((video_width - line_w) / 2))` and `word_idx` continues
across lines. -/
def hlOps (fs videoW yA lineH : ℤ) (start stop : ℚ) (N : ℕ) :
    ℕ → ℕ → List (List (List Char)) → List FilterOp
  | _, _, [] => []
  | li, wordIdx, lw :: rest =>
    lineHlOps fs start stop N (yA + (li : ℤ) * lineH)
        ((max 10 (ratTrunc (((videoW : ℚ) - lineWidth fs lw) / 2)) : ℤ) : ℚ) wordIdx lw
      ++ hlOps fs videoW yA lineH start stop N (li + 1) (wordIdx + lw.length) rest

/-- All operations one caption appends to the stream (`utils.py:170-261`):
nothing if the stripped text has no words, otherwise layer 1, then layer 2
(only when karaoke is on, the word count is positive and the duration is
positive), then layer 3. -/
def captionOps (videoW videoH : ℤ) (st : CaptionStyle) (c : Caption) : List FilterOp :=
  let fs := resolveFontSize st videoH
  let words := pyWords (pyStrip c.text.data)
  if words = [] then []
  else
    let lines := wrapLines fs ((videoW : ℚ) - 60) words
    bgOps fs (yAnchor st videoH) (lineHeight fs) c.start c.stop 0 lines
      ++ (if resolveKaraoke st = true ∧ 0 < words.length ∧ 0 < c.stop - c.start then
            hlOps fs videoW (yAnchor st videoH) (lineHeight fs) c.start c.stop
              words.length 0 0 lines
          else [])
      ++ fgOps fs (yAnchor st videoH) (lineHeight fs) c.start c.stop 0 lines

/-- The wrapped lines of one caption, under the resolved style. -/
def capLines (videoW videoH : ℤ) (st : CaptionStyle) (c : Caption) :
    List (List (List Char)) :=
  wrapLines (resolveFontSize st videoH) ((videoW : ℚ) - 60) (pyWords (pyStrip c.text.data))

/-- `build_drawtext_filters` (`utils.py:125-263`): fold over the captions,
each appending its operations to the one stream. -/
def build_drawtext_filters (stream : List FilterOp) (captions : List Caption)
    (videoW videoH : ℤ) (st : CaptionStyle) : List FilterOp :=
  if captions = [] then stream
  else captions.foldl (fun s c => s ++ captionOps videoW videoH st c) stream

/-- A video stream value built by `build_crossfade_concat`: either the raw
video of input segment `i`, or an `xfade` of an assembled stream with
segment `i` at a given transition duration and offset. -/
inductive VStream where
  | seg (i : ℕ)
  | xfade (v : VStream) (i : ℕ) (transition offset : ℚ)
deriving DecidableEq, Repr

/-- An audio stream value built by `build_crossfade_concat`. -/
inductive AStream where
  | seg (i : ℕ)
  | acrossfade (a : AStream) (i : ℕ) (d : ℚ)
deriving DecidableEq, Repr

/-- The innermost segment a video chain starts from. -/
def VStream.base : VStream → ℕ
  | .seg i => i
  | .xfade v _ _ _ => v.base

/-- The xfade offsets of a video chain, innermost first. -/
def VStream.offsets : VStream → List ℚ
  | .seg _ => []
  | .xfade v _ _ off => v.offsets ++ [off]

/-- The innermost segment an audio chain starts from. -/
def AStream.base : AStream → ℕ
  | .seg i => i
  | .acrossfade a _ _ => a.base

/-- The loop of `build_crossfade_concat` (`utils.py:96-103`): each remaining
segment is merged at `offset = cumulative - transition_duration`, then
`cumulative += duration - transition_duration`. -/
def crossfadeAux (T : ℚ) : List ℚ → ℕ → VStream → AStream → ℚ → VStream × AStream
  | [], _, v, a, _ => (v, a)
  | d :: rest, i, v, a, cum =>
    crossfadeAux T rest (i + 1) (.xfade v i T (cum - T)) (.acrossfade a i T) (cum + d - T)

/-- `build_crossfade_concat` (`utils.py:75-105`) on the per-segment durations
`end - start`; `none` models the `IndexError` of `clips_v[0]` on an empty
segment list. -/
def build_crossfade_concat (T : ℚ) (segments : List (ℚ × ℚ)) :
    Option (VStream × AStream) :=
  match segments.map (fun p => p.2 - p.1) with
  | [] => none
  | d0 :: rest => some (crossfadeAux T rest 1 (.seg 0) (.seg 0) d0)

/-- Outcome of the external blocking ffmpeg encode invocation: it either
completes or raises `ffmpeg.Error` with the diagnostic text to decode. -/
inductive EncodeOutcome where
  | success
  | failure (stderr : String)
deriving DecidableEq, Repr

/-- `extract_clip` (`server.py:74-123`), for an input whose existence is the
`fileExists` flag and whose encode step has the given outcome.  The result is
`ok s` when the Python function returns the string `s` and `error e` when the
exception `e` escapes it uncaught.  The body first resolves dimensions (which
can raise `ValueError` or `ZeroDivisionError`), then runs the encode (which
can raise `ffmpeg.Error`); the surrounding `try/except ffmpeg.Error` turns
only `ffmpeg.Error` into a returned string. -/
def extract_clip (fileExists : Bool) (file_path : String) (output_format : String)
    (custom_ratio : Option String) (encode : EncodeOutcome) : Except Exn String :=
  if fileExists = false then .ok ("Error: File not found at :" ++ file_path)
  else
    let body : Except Exn String :=
      match get_format_dimensions output_format custom_ratio with
      | .error e => .error e
      | .ok _dims =>
        match encode with
        | .failure stderr => .error (.ffmpegError stderr)
        | .success => .ok ("Success! Clip saved to: " ++ file_path ++ "_clip_" ++ output_format)
    match body with
    | .error (.ffmpegError msg) => .ok ("Error cutting video: " ++ msg)
    | other => other

/-- `create_supercut` (`server.py:126-186`), modelled like `extract_clip`;
it additionally returns early on an empty segment list, and formats caught
`ffmpeg.Error` diagnostics with a different prefix. -/
def create_supercut (fileExists : Bool) (file_path : String)
    (segments : List (ℚ × ℚ)) (output_format : String) (custom_ratio : Option String)
    (encode : EncodeOutcome) : Except Exn String :=
  if fileExists = false then .ok ("Error: File not found at: " ++ file_path)
  else if segments = [] then .ok "Error: No segments provided."
  else
    let body : Except Exn String :=
      match get_format_dimensions output_format custom_ratio with
      | .error e => .error e
      | .ok _dims =>
        match encode with
        | .failure stderr => .error (.ffmpegError stderr)
        | .success =>
          .ok ("Success! Supercut created at: " ++ file_path ++ "_supercut_" ++ output_format)
    match body with
    | .error (.ffmpegError msg) => .ok ("FFmpeg Error: " ++ msg)
    | other => other

/-- Per-character description of `_escape_drawtext` used by the claim: a
backslash is doubled, a colon is backslash-prefixed, an ASCII apostrophe
becomes U+2019, everything else is kept. -/
def escChar (c : Char) : List Char :=
  if c = '\\' then ['\\', '\\']
  else if c = ':' then ['\\', ':']
  else if c = '\'' then ['’']
  else [c]

/-- Round a natural number down to the nearest even natural number. -/
def evenizeNat (n : ℕ) : ℕ := n - n % 2

/-- Dimensions as described by the specification sentence behind C1, written
from the claim's words: anchor the branch on `W ≥ H`; the anchored axis is
1080 (resp. 1920) and the other axis is the floor `⌊1080·H/W⌋`
(resp. `⌊1920·W/H⌋`) rounded down to the nearest even integer.  Natural
division in Lean is exactly the floor. -/
def claimDims (W H : ℕ) : ℤ × ℤ :=
  if H ≤ W then ((1080 : ℤ), (evenizeNat (1080 * H / W) : ℕ))
  else ((evenizeNat (1920 * W / H) : ℕ), (1920 : ℤ))

/-- The offsets the crossfade loop will emit starting from a given cumulative
duration: one per remaining segment, each `cumulative - T`, with
`cumulative` advanced by `d - T` per segment. -/
def offsetsFrom (T : ℚ) : ℚ → List ℚ → List ℚ
  | _, [] => []
  | cum, d :: rest => (cum - T) :: offsetsFrom T (cum + d - T) rest

/-- The three layers a caption draws in, used to state the shape of the
operation list one caption contributes. -/
inductive OpKind where
  | bg
  | hl
  | fg
deriving DecidableEq, Repr

/-- The layer an operation belongs to. -/
def FilterOp.kind : FilterOp → OpKind
  | .bgBox _ _ _ _ _ => .bg
  | .hlBox _ _ _ _ _ _ => .hl
  | .fgText _ _ _ _ _ => .fg

/-- Number of highlight boxes a caption is due: its word count when karaoke
is on, the word count is positive and the duration is positive, else 0. -/
def hlCount (st : CaptionStyle) (c : Caption) : ℕ :=
  if resolveKaraoke st = true ∧ 0 < (pyWords (pyStrip c.text.data)).length
      ∧ 0 < c.stop - c.start then
    (pyWords (pyStrip c.text.data)).length
  else 0

/-- Rejection predicate for the `custom` format on a truthy ratio string,
read off the model: not exactly two parts, an unparsable part, or a zero
divisor in the branch taken. -/
def ratioRejected (s : String) : Bool :=
  match splitColon s.data with
  | [p0, p1] =>
    match pyIntChars p0, pyIntChars p1 with
    | some rw, some rh => (decide (rh ≤ rw) && decide (rw = 0)) ||
        (decide (rw < rh) && decide (rh = 0))
    | _, _ => true
  | _ => true

theorem evenize_even (n : ℤ) : 2 ∣ evenize n := by
  unfold evenize; omega

theorem evenize_natCast (n : ℕ) : evenize (n : ℤ) = (evenizeNat n : ℤ) := by
  unfold evenize evenizeNat; omega

theorem tdiv_natCast (a b : ℕ) : Int.tdiv (a : ℤ) (b : ℤ) = ((a / b : ℕ) : ℤ) := rfl

theorem two_le_evenizeNat (n : ℕ) (h : 2 ≤ n) : 2 ≤ evenizeNat n := by
  unfold evenizeNat; omega

theorem ne_empty_of_pair_split (s : String) (a b : List Char)
    (h : splitColon s.data = [a, b]) : s ≠ "" := by
  intro he
  subst he
  have h0 : splitColon ("" : String).data = [[]] := by decide
  rw [h0] at h
  simp at h

theorem gfd_custom (s : String) (hs : s ≠ "") :
    get_format_dimensions "custom" (some s) = customDims s := by
  unfold get_format_dimensions
  rw [if_neg (by decide), if_neg (by decide), if_neg (by decide),
    if_pos ⟨rfl, by simp [truthy, hs]⟩]

theorem customDims_parsed (s : String) (a b : List Char) (rw rh : ℤ)
    (hs : splitColon s.data = [a, b]) (ha : pyIntChars a = some rw)
    (hb : pyIntChars b = some rh) :
    customDims s =
      (if rh ≤ rw then
         if rw = 0 then .error .zeroDivisionError
         else .ok (some (evenize 1080, evenize (Int.tdiv (1080 * rh) rw)))
       else if rh = 0 then .error .zeroDivisionError
       else .ok (some (evenize (Int.tdiv (1920 * rw) rh), evenize 1920))) := by
  simp only [customDims, hs, ha, hb]

theorem customDims_posNat (s : String) (a b : List Char) (W H : ℕ)
    (hs : splitColon s.data = [a, b]) (ha : pyIntChars a = some (W : ℤ))
    (hb : pyIntChars b = some (H : ℤ)) (hW : 0 < W) (hH : 0 < H) :
    customDims s = .ok (some (claimDims W H)) := by
  rw [customDims_parsed s a b _ _ hs ha hb]
  unfold claimDims
  by_cases hHW : H ≤ W
  · rw [if_pos (by exact_mod_cast hHW), if_neg (by exact_mod_cast hW.ne'),
      if_pos hHW]
    have e2 : (1080 * (H : ℤ)) = ((1080 * H : ℕ) : ℤ) := by push_cast; ring
    rw [e2, show ((W : ℕ) : ℤ) = ((W : ℕ) : ℤ) from rfl, tdiv_natCast, evenize_natCast]
    rfl
  · rw [if_neg (by exact_mod_cast hHW), if_neg (by exact_mod_cast hH.ne'),
      if_neg hHW]
    have e2 : (1920 * (W : ℤ)) = ((1920 * W : ℕ) : ℤ) := by push_cast; ring
    rw [e2, tdiv_natCast, evenize_natCast]
    rfl

theorem customDims_even (r : String) (d : ℤ × ℤ)
    (h : customDims r = .ok (some d)) : 2 ∣ d.1 ∧ 2 ∣ d.2 := by
  unfold customDims at h
  split at h
  · split at h
    · split at h
      · split at h
        · simp at h
        · simp only [Except.ok.injEq, Option.some.injEq] at h
          subst h
          exact ⟨evenize_even _, evenize_even _⟩
      · split at h
        · simp at h
        · simp only [Except.ok.injEq, Option.some.injEq] at h
          subst h
          exact ⟨evenize_even _, evenize_even _⟩
    · simp at h
  · simp at h

/-- C1: for a custom ratio string splitting into two parts that parse as the
positive integers `W` and `H`, the resolver anchors on `W ≥ H`: width 1080
and height `⌊1080·H/W⌋` rounded down to even, otherwise height 1920 and
width `⌊1920·W/H⌋` rounded down to even (the statement compares the code
model against `claimDims`, which is written from the claim's words). -/
theorem c1_custom_ratio_dims (s : String) (a b : List Char) (W H : ℕ)
    (hs : splitColon s.data = [a, b]) (ha : pyIntChars a = some (W : ℤ))
    (hb : pyIntChars b = some (H : ℤ)) (hW : 0 < W) (hH : 0 < H) :
    get_format_dimensions "custom" (some s) = .ok (some (claimDims W H)) :=
  (gfd_custom s (ne_empty_of_pair_split s a b hs)).trans
    (customDims_posNat s a b W H hs ha hb hW hH)

/-- C1 witness: ratio `4:5` resolves to width 1536 and height 1920. -/
theorem c1_witness : get_format_dimensions "custom" (some "4:5") = .ok (some (1536, 1920)) :=
  (c1_custom_ratio_dims "4:5" ['4'] ['5'] 4 5 (by decide) (by decide) (by decide)
    (by decide) (by decide)).trans (by decide)

/-- C2 counterexample: the custom ratio `1081:1` is accepted and resolves to
`(1080, 0)`, whose height is even but smaller than 2 — refuting the claim
that every resolved dimension pair has both components at least 2. -/
theorem c2_counterexample :
    get_format_dimensions "custom" (some "1081:1") = .ok (some (1080, 0)) ∧
      ¬(2 ≤ (0 : ℤ)) := by decide

/-- C2 amended: every dimension pair the resolver returns has both components
even; `short` and `square` resolve to fixed pairs with both components at
least 2; and a custom ratio of positive integers `W:H` yields components at
least 2 provided the ratio is no more extreme than `W ≤ 540·H` (the `W ≥ H`
branch) and `H ≤ 960·W` (the `W < H` branch) — without those bounds the
scaled axis can floor to 0, as the counterexample shows. -/
theorem c2_amended :
    (∀ fmt r d, get_format_dimensions fmt r = .ok (some d) → 2 ∣ d.1 ∧ 2 ∣ d.2) ∧
    get_format_dimensions "short" none = .ok (some (1080, 1920)) ∧
    get_format_dimensions "square" none = .ok (some (1080, 1080)) ∧
    (∀ (s : String) (a b : List Char) (W H : ℕ),
      splitColon s.data = [a, b] → pyIntChars a = some (W : ℤ) →
      pyIntChars b = some (H : ℤ) → 0 < W → 0 < H → W ≤ 540 * H → H ≤ 960 * W →
      ∀ d, get_format_dimensions "custom" (some s) = .ok (some d) →
        2 ≤ d.1 ∧ 2 ≤ d.2) := by
  refine ⟨?_, by decide, by decide, ?_⟩
  · intro fmt r d h
    unfold get_format_dimensions at h
    split at h
    · simp at h
    · split at h
      · simp only [Except.ok.injEq, Option.some.injEq] at h
        subst h; decide
      · split at h
        · simp only [Except.ok.injEq, Option.some.injEq] at h
          subst h; decide
        · split at h
          · split at h
            · exact customDims_even _ _ h
            · simp at h
          · simp at h
  · intro s a b W H hs ha hb hW hH hbound1 hbound2 d hd
    rw [c1_custom_ratio_dims s a b W H hs ha hb hW hH] at hd
    simp only [Except.ok.injEq, Option.some.injEq] at hd
    subst hd
    unfold claimDims
    by_cases hHW : H ≤ W
    · rw [if_pos hHW]
      refine ⟨by norm_num, ?_⟩
      have h2 : 2 ≤ 1080 * H / W := by
        rw [Nat.le_div_iff_mul_le hW]
        omega
      show (2 : ℤ) ≤ ((evenizeNat (1080 * H / W) : ℕ) : ℤ)
      exact_mod_cast two_le_evenizeNat _ h2
    · rw [if_neg hHW]
      refine ⟨?_, by norm_num⟩
      have h2 : 2 ≤ 1920 * W / H := by
        rw [Nat.le_div_iff_mul_le hH]
        omega
      show (2 : ℤ) ≤ ((evenizeNat (1920 * W / H) : ℕ) : ℤ)
      exact_mod_cast two_le_evenizeNat _ h2

/-- C2 witness: the evenness part applied at format `short`, and the
at-least-2 part applied at ratio `4:5`. -/
theorem c2_witness :
    (2 ∣ (1080 : ℤ) ∧ 2 ∣ (1920 : ℤ)) ∧ (2 ≤ (1536 : ℤ) ∧ 2 ≤ (1920 : ℤ)) :=
  ⟨c2_amended.1 "short" none (1080, 1920) (by decide),
   c2_amended.2.2.2 "4:5" ['4'] ['5'] 4 5 (by decide) (by decide) (by decide)
     (by decide) (by decide) (by decide) (by decide) (1536, 1920) (by decide)⟩

/-- C5 counterexample: with format `custom` and no ratio string, the resolver
succeeds with `None` (no resize) instead of raising any error. -/
theorem c5_counterexample : get_format_dimensions "custom" none = .ok none := by decide

/-- C5 amended: when the output format is `custom` and the ratio string is
missing or empty (falsy), dimension resolution silently returns no
dimensions — the clip is then processed without resizing — rather than
raising an error. -/
theorem c5_amended (r : Option String) (h : truthy r = false) :
    get_format_dimensions "custom" r = .ok none := by
  match r with
  | none => decide
  | some s =>
    simp only [truthy, decide_eq_false_iff_not, not_not] at h
    subst h
    decide

/-- C5 witness: the empty ratio string is falsy and yields `ok none`. -/
theorem c5_witness : get_format_dimensions "custom" (some "") = .ok none :=
  c5_amended (some "") (by decide)

/-- C6 counterexample: the ratio string `0:5`, which contains a zero
component, is not rejected: it resolves to `(0, 1920)`. -/
theorem c6_counterexample :
    get_format_dimensions "custom" (some "0:5") = .ok (some (0, 1920)) := by decide

/-- C6 amended: for the `custom` format with a non-empty ratio string,
dimension resolution raises an error exactly when the string does not split
into two colon-separated integer literals, or the component dividing the
taken branch is zero (`W = 0` in the `W ≥ H` branch, `H = 0` in the `W < H`
branch).  Positivity is not checked: zero or negative components that avoid
the zero divisor are accepted. -/
theorem c6_amended (s : String) (hs : s ≠ "") :
    (∃ e, get_format_dimensions "custom" (some s) = .error e) ↔ ratioRejected s = true := by
  rw [gfd_custom s hs]
  unfold customDims ratioRejected
  split
  · split
    · split
      · split
        · simp
          omega
        · simp
          omega
      · split
        · simp
          omega
        · simp
          omega
    · simp
  · simp

/-- C6 witness: `1:2:3` has three parts and is rejected with an error. -/
theorem c6_witness : ∃ e, get_format_dimensions "custom" (some "1:2:3") = .error e :=
  (c6_amended "1:2:3" (by decide)).mpr (by decide)

/-- C7 counterexample: on an existing file with format `custom` and the
malformed ratio `1:2:3`, both tool functions let the `ValueError` escape
uncaught (the `except` clause catches only `ffmpeg.Error`), refuting the
claim that every failure is returned as a string result. -/
theorem c7_counterexample :
    extract_clip true "clip.mp4" "custom" (some "1:2:3") .success
        = .error (.valueError ("Invalid ratio format " ++ "1:2:3" ++ ", expected W:H e.g. 4:5")) ∧
      create_supercut true "clip.mp4" [(0, 1)] "custom" (some "1:2:3") .success
        = .error (.valueError ("Invalid ratio format " ++ "1:2:3" ++ ", expected W:H e.g. 4:5")) := by
  constructor
  · rfl
  · rfl

/-- C7 amended: when dimension resolution itself succeeds, no exception
escapes `extract_clip` or `create_supercut`: a missing file and an empty
segment list are reported as strings, the external encode failure
(`ffmpeg.Error`) is caught and reformatted as a string, and success returns a
string.  But when dimension resolution raises (bad ratio), the exception
escapes both functions uncaught, as the counterexample shows. -/
theorem c7_amended (fileExists : Bool) (fp fmt : String) (r : Option String)
    (segs : List (ℚ × ℚ)) (enc : EncodeOutcome) (dims : Option (ℤ × ℤ))
    (hdims : get_format_dimensions fmt r = .ok dims) :
    (∃ s, extract_clip fileExists fp fmt r enc = .ok s) ∧
    (∃ s, create_supercut fileExists fp segs fmt r enc = .ok s) := by
  constructor
  · unfold extract_clip
    cases fileExists
    · exact ⟨_, rfl⟩
    · rw [if_neg (by simp)]
      rw [hdims]
      cases enc
      · exact ⟨_, rfl⟩
      · exact ⟨_, rfl⟩
  · unfold create_supercut
    cases fileExists
    · exact ⟨_, rfl⟩
    · rw [if_neg (by simp)]
      by_cases hseg : segs = []
      · rw [if_pos hseg]
        exact ⟨_, rfl⟩
      · rw [if_neg hseg]
        rw [hdims]
        cases enc
        · exact ⟨_, rfl⟩
        · exact ⟨_, rfl⟩

/-- C7 witness: with format `short`, an existing file and a failing encode,
both functions return string results. -/
theorem c7_witness :
    (∃ s, extract_clip true "v.mp4" "short" none (.failure "boom") = .ok s) ∧
    (∃ s, create_supercut true "v.mp4" [(0, 1)] "short" none (.failure "boom") = .ok s) :=
  c7_amended true "v.mp4" "short" none [(0, 1)] (.failure "boom")
    (some (1080, 1920)) (by decide)

theorem crossfadeAux_spec (T : ℚ) (ds : List ℚ) (i : ℕ) (v : VStream) (a : AStream)
    (cum : ℚ) :
    (crossfadeAux T ds i v a cum).1.offsets = v.offsets ++ offsetsFrom T cum ds ∧
    (crossfadeAux T ds i v a cum).1.base = v.base ∧
    (crossfadeAux T ds i v a cum).2.base = a.base := by
  induction ds generalizing i v a cum with
  | nil => simp [crossfadeAux, offsetsFrom]
  | cons d rest ih =>
    obtain ⟨h1, h2, h3⟩ := ih (i + 1) (.xfade v i T (cum - T)) (.acrossfade a i T) (cum + d - T)
    refine ⟨?_, ?_, ?_⟩
    · rw [show crossfadeAux T (d :: rest) i v a cum
          = crossfadeAux T rest (i + 1) (.xfade v i T (cum - T)) (.acrossfade a i T)
              (cum + d - T) from rfl, h1]
      simp [VStream.offsets, offsetsFrom]
    · rw [show crossfadeAux T (d :: rest) i v a cum
          = crossfadeAux T rest (i + 1) (.xfade v i T (cum - T)) (.acrossfade a i T)
              (cum + d - T) from rfl, h2]
      rfl
    · rw [show crossfadeAux T (d :: rest) i v a cum
          = crossfadeAux T rest (i + 1) (.xfade v i T (cum - T)) (.acrossfade a i T)
              (cum + d - T) from rfl, h3]
      rfl

theorem offsetsFrom_eq_map (T : ℚ) (ds : List ℚ) : ∀ cum : ℚ,
    offsetsFrom T cum ds = (List.range ds.length).map
      (fun k => cum + (ds.take k).sum - k * T - T) := by
  induction ds with
  | nil => intro cum; simp [offsetsFrom]
  | cons d rest ih =>
    intro cum
    rw [show offsetsFrom T cum (d :: rest) = (cum - T) :: offsetsFrom T (cum + d - T) rest
        from rfl, ih (cum + d - T)]
    rw [List.length_cons, List.range_succ_eq_map, List.map_cons, List.map_map]
    congr 1
    · simp
    · apply List.map_congr_left
      intro k _
      simp only [Function.comp_apply, List.take_succ_cons, List.sum_cons, Nat.succ_eq_add_one]
      push_cast
      ring

/-- C9: crossfade assembly on a non-empty segment list starts both the video
and the audio chain at segment 0, and merges segment `i = k+1` at offset
`(sum of the first k+1 segment durations) - k*T - T`, i.e. at
`cumulative - T` where the cumulative duration before merging segment `i`
is the sum of the first `i` durations minus `(i-1)*T` — after each merge the
cumulative grows by that segment's duration minus `T`. -/
theorem c9_crossfade_offsets (T : ℚ) (segments : List (ℚ × ℚ)) (s0 : ℚ × ℚ)
    (rest : List (ℚ × ℚ)) (hseg : segments = s0 :: rest) :
    ∃ v a, build_crossfade_concat T segments = some (v, a) ∧
      v.base = 0 ∧ a.base = 0 ∧
      v.offsets = (List.range rest.length).map (fun k =>
        ((segments.map (fun p => p.2 - p.1)).take (k + 1)).sum - k * T - T) := by
  subst hseg
  refine ⟨_, _, rfl, ?_, ?_, ?_⟩
  · exact (crossfadeAux_spec T (rest.map (fun p => p.2 - p.1)) 1 (.seg 0) (.seg 0)
      (s0.2 - s0.1)).2.1
  · exact (crossfadeAux_spec T (rest.map (fun p => p.2 - p.1)) 1 (.seg 0) (.seg 0)
      (s0.2 - s0.1)).2.2
  · rw [(crossfadeAux_spec T (rest.map (fun p => p.2 - p.1)) 1 (.seg 0) (.seg 0)
      (s0.2 - s0.1)).1]
    rw [show VStream.offsets (.seg 0) = [] from rfl, List.nil_append,
      offsetsFrom_eq_map T (rest.map (fun p => p.2 - p.1)) (s0.2 - s0.1),
      List.length_map]
    apply List.map_congr_left
    intro k _
    rw [List.map_cons, List.take_succ_cons, List.sum_cons]

/-- C9 witness: two segments of durations 5 and 4 with a half-second
transition merge segment 1 at offset `5 - 1/2 - 0*(1/2)` = `4.5`. -/
theorem c9_witness :
    ∃ v a, build_crossfade_concat (1 / 2) [((0 : ℚ), (5 : ℚ)), ((5 : ℚ), (9 : ℚ))]
        = some (v, a) ∧
      v.base = 0 ∧ a.base = 0 ∧
      v.offsets = (List.range 1).map (fun k =>
        (([((0 : ℚ), (5 : ℚ)), ((5 : ℚ), (9 : ℚ))].map (fun p => p.2 - p.1)).take (k + 1)).sum
          - k * (1 / 2) - 1 / 2) :=
  c9_crossfade_offsets (1 / 2) _ (0, 5) [(5, 9)] rfl

theorem captionOps_eq (videoW videoH : ℤ) (st : CaptionStyle) (c : Caption) :
    captionOps videoW videoH st c =
      if pyWords (pyStrip c.text.data) = [] then []
      else
        bgOps (resolveFontSize st videoH) (yAnchor st videoH)
            (lineHeight (resolveFontSize st videoH)) c.start c.stop 0
            (capLines videoW videoH st c)
          ++ (if resolveKaraoke st = true ∧ 0 < (pyWords (pyStrip c.text.data)).length
                ∧ 0 < c.stop - c.start then
                hlOps (resolveFontSize st videoH) videoW (yAnchor st videoH)
                  (lineHeight (resolveFontSize st videoH)) c.start c.stop
                  (pyWords (pyStrip c.text.data)).length 0 0 (capLines videoW videoH st c)
              else [])
          ++ fgOps (resolveFontSize st videoH) (yAnchor st videoH)
              (lineHeight (resolveFontSize st videoH)) c.start c.stop 0
              (capLines videoW videoH st c) := rfl

theorem bgOps_filter_hl (fs yA lh : ℤ) (s e : ℚ) (li : ℕ) (lines : List (List (List Char))) :
    (bgOps fs yA lh s e li lines).filter FilterOp.isHlBox = [] := by
  induction lines generalizing li with
  | nil => rfl
  | cons lw rest ih => simp [bgOps, FilterOp.isHlBox, ih]

theorem fgOps_filter_hl (fs yA lh : ℤ) (s e : ℚ) (li : ℕ) (lines : List (List (List Char))) :
    (fgOps fs yA lh s e li lines).filter FilterOp.isHlBox = [] := by
  induction lines generalizing li with
  | nil => rfl
  | cons lw rest ih => simp [fgOps, FilterOp.isHlBox, ih]

/-- C3: under the uniform karaoke division with `N > 0` words and positive
duration, window 0 starts at `caption.start`, window `N-1` ends at
`caption.end`, and each window ends exactly where the next begins — the
windows are contiguous and partition `[caption.start, caption.end]`; and a
caption with no words or non-positive duration contributes no highlight
drawbox at all. -/
theorem c3_karaoke_partition :
    (∀ (start stop : ℚ) (N : ℕ), 0 < N → 0 < stop - start →
      (wordWindow start stop N 0).1 = start ∧
      (wordWindow start stop N (N - 1)).2 = stop ∧
      ∀ i : ℕ, i + 1 < N →
        (wordWindow start stop N i).2 = (wordWindow start stop N (i + 1)).1) ∧
    (∀ (videoW videoH : ℤ) (st : CaptionStyle) (c : Caption),
      pyWords (pyStrip c.text.data) = [] ∨ c.stop - c.start ≤ 0 →
      (captionOps videoW videoH st c).filter FilterOp.isHlBox = []) := by
  constructor
  · intro start stop N hN hD
    have hNQ : (N : ℚ) ≠ 0 := Nat.cast_ne_zero.mpr hN.ne'
    refine ⟨?_, ?_, ?_⟩
    · simp [wordWindow]
    · unfold wordWindow
      have hcast : ((N - 1 : ℕ) : ℚ) = (N : ℚ) - 1 := by
        have h1 : 1 ≤ N := hN
        push_cast [h1]
        ring
      rw [hcast]
      field_simp
    · intro i _
      unfold wordWindow
      push_cast
      ring
  · intro videoW videoH st c h
    by_cases hw : pyWords (pyStrip c.text.data) = []
    · rw [captionOps_eq, if_pos hw]
      rfl
    · rcases h with h | h
      · exact absurd h hw
      · rw [captionOps_eq, if_neg hw, if_neg (by
          rintro ⟨-, -, hlt⟩
          exact absurd hlt (not_lt.mpr h))]
        simp [List.filter_append, bgOps_filter_hl, fgOps_filter_hl]

/-- C3 witness: with `N = 4` words on `[0, 2]`, window 0 starts at 0, window
3 ends at 2, window 1 ends where window 2 begins; and a caption of
non-positive duration produces no highlight drawbox. -/
theorem c3_witness :
    (wordWindow 0 2 4 0).1 = 0 ∧ (wordWindow 0 2 4 3).2 = 2 ∧
      (wordWindow 0 2 4 1).2 = (wordWindow 0 2 4 2).1 ∧
      (captionOps 1080 1920 {} ⟨2, 1, "hi"⟩).filter FilterOp.isHlBox = [] := by
  obtain ⟨h1, h2, h3⟩ := c3_karaoke_partition.1 0 2 4 (by norm_num) (by norm_num)
  exact ⟨h1, h2, h3 1 (by norm_num),
    c3_karaoke_partition.2 1080 1920 {} ⟨2, 1, "hi"⟩ (Or.inr (by norm_num))⟩

theorem lineWidth_nil (fs : ℤ) : lineWidth fs [] = 0 := by
  simp [lineWidth]

theorem lineWidth_singleton (fs : ℤ) (w : List Char) :
    lineWidth fs [w] = wordWidth fs w := by
  simp [lineWidth]

theorem lineWidth_append_singleton (fs : ℤ) (l : List (List Char)) (w : List Char)
    (hl : l ≠ []) :
    lineWidth fs (l ++ [w]) = lineWidth fs l + (wordWidth fs w + spaceW fs) := by
  cases l with
  | nil => exact absurd rfl hl
  | cons a as =>
    unfold lineWidth
    simp only [List.map_append, List.map_cons, List.sum_append, List.length_append,
      List.length_cons, List.map_nil, List.sum_cons, List.sum_nil, List.length_nil]
    have e1 : (as.length + 1 + 1 - 1 : ℕ) = as.length + 1 := by omega
    have e2 : (as.length + 1 - 1 : ℕ) = as.length := by omega
    rw [e1, e2]
    push_cast
    ring

theorem wrapStep_eq (fs : ℤ) (maxW : ℚ) (st : List (List (List Char)) × List (List Char) × ℚ)
    (w : List Char) :
    wrapStep fs maxW st w =
      if maxW < st.2.2 + (wordWidth fs w + (if st.2.1 = [] then 0 else spaceW fs))
          ∧ st.2.1 ≠ [] then
        (st.1 ++ [st.2.1], [w], wordWidth fs w)
      else
        (st.1, st.2.1 ++ [w],
          st.2.2 + (wordWidth fs w + (if st.2.1 = [] then 0 else spaceW fs))) := rfl

theorem wrapLines_eq (fs : ℤ) (maxW : ℚ) (words : List (List Char)) :
    wrapLines fs maxW words =
      (if (words.foldl (wrapStep fs maxW) ([], [], 0)).2.1 = []
       then (words.foldl (wrapStep fs maxW) ([], [], 0)).1
       else (words.foldl (wrapStep fs maxW) ([], [], 0)).1
         ++ [(words.foldl (wrapStep fs maxW) ([], [], 0)).2.1]) := rfl

theorem wrapStep_inv (fs : ℤ) (maxW : ℚ)
    (st : List (List (List Char)) × List (List Char) × ℚ) (w : List Char)
    (h1 : st.2.2 = lineWidth fs st.2.1)
    (h2 : ∀ l ∈ st.1, 2 ≤ l.length → lineWidth fs l ≤ maxW)
    (h3 : 2 ≤ st.2.1.length → lineWidth fs st.2.1 ≤ maxW) :
    ((wrapStep fs maxW st w).2.2 = lineWidth fs (wrapStep fs maxW st w).2.1) ∧
    (∀ l ∈ (wrapStep fs maxW st w).1, 2 ≤ l.length → lineWidth fs l ≤ maxW) ∧
    (2 ≤ (wrapStep fs maxW st w).2.1.length →
      lineWidth fs (wrapStep fs maxW st w).2.1 ≤ maxW) := by
  rw [wrapStep_eq]
  by_cases hc : maxW < st.2.2 + (wordWidth fs w + (if st.2.1 = [] then 0 else spaceW fs))
      ∧ st.2.1 ≠ []
  · rw [if_pos hc]
    refine ⟨(lineWidth_singleton fs w).symm, ?_, ?_⟩
    · intro l hlmem
      rcases List.mem_append.mp hlmem with hmem | hmem
      · exact h2 l hmem
      · rw [List.mem_singleton.mp hmem]
        exact h3
    · intro hlen
      simp at hlen
  · rw [if_neg hc]
    have hwidth : st.2.2 + (wordWidth fs w + (if st.2.1 = [] then 0 else spaceW fs))
        = lineWidth fs (st.2.1 ++ [w]) := by
      by_cases hcur : st.2.1 = []
      · rw [if_pos hcur, hcur, h1, hcur, lineWidth_nil, List.nil_append,
          lineWidth_singleton]
        ring
      · rw [if_neg hcur, lineWidth_append_singleton fs st.2.1 w hcur, h1]
    refine ⟨hwidth, h2, ?_⟩
    intro hlen
    by_cases hcur : st.2.1 = []
    · rw [hcur] at hlen
      simp at hlen
    · rw [← hwidth]
      rcases not_and_or.mp hc with hnl | hne
      · exact not_lt.mp hnl
      · exact absurd hcur hne

theorem wrap_foldl_inv (fs : ℤ) (maxW : ℚ) (words : List (List Char)) :
    ∀ st : List (List (List Char)) × List (List Char) × ℚ,
      st.2.2 = lineWidth fs st.2.1 →
      (∀ l ∈ st.1, 2 ≤ l.length → lineWidth fs l ≤ maxW) →
      (2 ≤ st.2.1.length → lineWidth fs st.2.1 ≤ maxW) →
      ((words.foldl (wrapStep fs maxW) st).2.2
          = lineWidth fs (words.foldl (wrapStep fs maxW) st).2.1) ∧
      (∀ l ∈ (words.foldl (wrapStep fs maxW) st).1, 2 ≤ l.length → lineWidth fs l ≤ maxW) ∧
      (2 ≤ (words.foldl (wrapStep fs maxW) st).2.1.length →
        lineWidth fs (words.foldl (wrapStep fs maxW) st).2.1 ≤ maxW) := by
  induction words with
  | nil => intro st h1 h2 h3; exact ⟨h1, h2, h3⟩
  | cons w ws ih =>
    intro st h1 h2 h3
    rw [List.foldl_cons]
    obtain ⟨g1, g2, g3⟩ := wrapStep_inv fs maxW st w h1 h2 h3
    exact ih (wrapStep fs maxW st w) g1 g2 g3

/-- C4: the greedy wrap never emits a line with two or more words whose
estimated width — word widths at `font_size·0.55` plus separating spaces at
`font_size·0.28` — exceeds the limit (the caption builder instantiates the
limit with `canvas_width - 60`); only a single over-wide word may stand
alone on an over-wide line. -/
theorem c4_wrap_width (fs : ℤ) (maxW : ℚ) (words : List (List Char))
    (l : List (List Char)) (hl : l ∈ wrapLines fs maxW words) (h2 : 2 ≤ l.length) :
    lineWidth fs l ≤ maxW := by
  obtain ⟨hinv1, hinv2, hinv3⟩ := wrap_foldl_inv fs maxW words ([], [], 0)
    (lineWidth_nil fs).symm (by simp) (by simp)
  rw [wrapLines_eq] at hl
  split at hl
  · exact hinv2 l hl h2
  · rcases List.mem_append.mp hl with hmem | hmem
    · exact hinv2 l hmem h2
    · rw [List.mem_singleton.mp hmem] at h2 ⊢
      exact hinv3 h2

/-- C4 witness: with font size 100 (word width 55 per character, space 28)
and limit 200, the words `a b` stay on one line of estimated width
`55 + 28 + 55 = 138 ≤ 200`. -/
theorem c4_witness : lineWidth 100 [['a'], ['b']] ≤ 200 :=
  c4_wrap_width 100 200 [['a'], ['b']] [['a'], ['b']]
    (by
      norm_num [wrapLines_eq, wrapStep_eq, wordWidth, avgCharW, spaceW,
        List.foldl_cons, List.foldl_nil]
      decide)
    (by norm_num)

theorem wrap_flatten_aux (fs : ℤ) (maxW : ℚ) (words : List (List Char)) :
    ∀ st : List (List (List Char)) × List (List Char) × ℚ,
      (words.foldl (wrapStep fs maxW) st).1.flatten
          ++ (words.foldl (wrapStep fs maxW) st).2.1
        = st.1.flatten ++ st.2.1 ++ words := by
  induction words with
  | nil => intro st; simp
  | cons w ws ih =>
    intro st
    rw [List.foldl_cons, ih (wrapStep fs maxW st w)]
    have key : (wrapStep fs maxW st w).1.flatten ++ (wrapStep fs maxW st w).2.1
        = st.1.flatten ++ (st.2.1 ++ [w]) := by
      by_cases hcur : st.2.1 = []
      · rw [wrapStep_eq, if_neg (by rintro ⟨-, hne⟩; exact hne hcur)]
      · by_cases hov : maxW < st.2.2
            + (wordWidth fs w + (if st.2.1 = [] then 0 else spaceW fs))
        · rw [wrapStep_eq, if_pos ⟨hov, hcur⟩]
          simp [List.flatten_append]
        · rw [wrapStep_eq, if_neg (by rintro ⟨h1, -⟩; exact hov h1)]
    rw [key]
    simp [List.append_assoc]

theorem wrapLines_flatten (fs : ℤ) (maxW : ℚ) (words : List (List Char)) :
    (wrapLines fs maxW words).flatten = words := by
  have h := wrap_flatten_aux fs maxW words ([], [], 0)
  simp only [List.flatten_nil, List.nil_append] at h
  rw [wrapLines_eq]
  split
  case isTrue hc =>
    rw [hc, List.append_nil] at h
    exact h
  case isFalse hc =>
    rw [List.flatten_append]
    simpa using h

theorem bgOps_map_kind (fs yA lh : ℤ) (s e : ℚ) (li : ℕ)
    (lines : List (List (List Char))) :
    (bgOps fs yA lh s e li lines).map FilterOp.kind
      = List.replicate lines.length OpKind.bg := by
  induction lines generalizing li with
  | nil => rfl
  | cons lw rest ih => simp [bgOps, FilterOp.kind, ih, List.replicate_succ]

theorem fgOps_map_kind (fs yA lh : ℤ) (s e : ℚ) (li : ℕ)
    (lines : List (List (List Char))) :
    (fgOps fs yA lh s e li lines).map FilterOp.kind
      = List.replicate lines.length OpKind.fg := by
  induction lines generalizing li with
  | nil => rfl
  | cons lw rest ih => simp [fgOps, FilterOp.kind, ih, List.replicate_succ]

theorem lineHlOps_map_kind (fs : ℤ) (s e : ℚ) (N : ℕ) (y : ℤ)
    (ws : List (List Char)) : ∀ (curX : ℚ) (wi : ℕ),
    (lineHlOps fs s e N y curX wi ws).map FilterOp.kind
      = List.replicate ws.length OpKind.hl := by
  induction ws with
  | nil => intro curX wi; rfl
  | cons w rest ih =>
    intro curX wi
    simp [lineHlOps, FilterOp.kind, ih, List.replicate_succ]

theorem hlOps_map_kind (fs videoW yA lh : ℤ) (s e : ℚ) (N : ℕ)
    (lines : List (List (List Char))) : ∀ (li wi : ℕ),
    (hlOps fs videoW yA lh s e N li wi lines).map FilterOp.kind
      = List.replicate (lines.map List.length).sum OpKind.hl := by
  induction lines with
  | nil => intro li wi; rfl
  | cons lw rest ih =>
    intro li wi
    rw [show hlOps fs videoW yA lh s e N li wi (lw :: rest)
        = lineHlOps fs s e N (yA + (li : ℤ) * lh)
            ((max 10 (ratTrunc (((videoW : ℚ) - lineWidth fs lw) / 2)) : ℤ) : ℚ) wi lw
          ++ hlOps fs videoW yA lh s e N (li + 1) (wi + lw.length) rest from rfl]
    rw [List.map_append, lineHlOps_map_kind, ih, List.map_cons, List.sum_cons,
      List.replicate_add]

theorem wrapLines_length_sum (fs : ℤ) (maxW : ℚ) (words : List (List Char)) :
    ((wrapLines fs maxW words).map List.length).sum = words.length := by
  rw [← List.length_flatten, wrapLines_flatten]

theorem build_flatMap (stream : List FilterOp) (captions : List Caption)
    (videoW videoH : ℤ) (st : CaptionStyle) :
    build_drawtext_filters stream captions videoW videoH st
      = stream ++ captions.flatMap (captionOps videoW videoH st) := by
  unfold build_drawtext_filters
  by_cases h : captions = []
  · rw [if_pos h, h]
    simp
  · rw [if_neg h]
    clear h
    induction captions generalizing stream with
    | nil => simp
    | cons c cs ih =>
      rw [List.foldl_cons, ih, List.flatMap_cons, List.append_assoc]

/-- C8: the builder appends, in caption list order, each caption's
operations to the single stream (later operations draw on top of earlier
ones); a caption whose text strips to no words contributes nothing; a
non-empty caption contributes exactly one background drawtext per computed
line, then one highlight drawbox per word — only when karaoke is enabled,
the word count is positive and the duration is positive, else none — then
one visible-text drawtext per computed line. -/
theorem c8_caption_layer_order (videoW videoH : ℤ) (st : CaptionStyle)
    (captions : List Caption) (stream : List FilterOp) :
    build_drawtext_filters stream captions videoW videoH st
        = stream ++ captions.flatMap (captionOps videoW videoH st) ∧
    ∀ c : Caption,
      (pyWords (pyStrip c.text.data) = [] → captionOps videoW videoH st c = []) ∧
      (captionOps videoW videoH st c).map FilterOp.kind
        = List.replicate (capLines videoW videoH st c).length OpKind.bg
          ++ List.replicate (hlCount st c) OpKind.hl
          ++ List.replicate (capLines videoW videoH st c).length OpKind.fg := by
  refine ⟨build_flatMap stream captions videoW videoH st, ?_⟩
  intro c
  constructor
  · intro hw
    rw [captionOps_eq, if_pos hw]
  · by_cases hw : pyWords (pyStrip c.text.data) = []
    · rw [captionOps_eq, if_pos hw]
      unfold capLines hlCount
      rw [hw, show wrapLines (resolveFontSize st videoH) ((videoW : ℚ) - 60)
          ([] : List (List Char)) = [] from rfl]
      simp
    · rw [captionOps_eq, if_neg hw, List.map_append, List.map_append,
        bgOps_map_kind, fgOps_map_kind]
      unfold hlCount
      by_cases hg : resolveKaraoke st = true
          ∧ 0 < (pyWords (pyStrip c.text.data)).length ∧ 0 < c.stop - c.start
      · rw [if_pos hg, if_pos hg, hlOps_map_kind]
        unfold capLines
        rw [wrapLines_length_sum]
      · rw [if_neg hg, if_neg hg]
        simp

/-- C8 witness: a caption of pure whitespace text contributes no operation,
and the builder is the fold of per-caption operation lists over the stream. -/
theorem c8_witness :
    captionOps 1080 1920 {} ⟨0, 1, "   "⟩ = [] ∧
    build_drawtext_filters [] [⟨0, 1, "   "⟩] 1080 1920 {}
      = [] ++ [(⟨0, 1, "   "⟩ : Caption)].flatMap (captionOps 1080 1920 {}) :=
  ⟨((c8_caption_layer_order 1080 1920 {} [] []).2 ⟨0, 1, "   "⟩).1 (by decide),
   (c8_caption_layer_order 1080 1920 {} [⟨0, 1, "   "⟩] []).1⟩

theorem replaceChar_append (c : Char) (r xs ys : List Char) :
    replaceChar c r (xs ++ ys) = replaceChar c r xs ++ replaceChar c r ys := by
  induction xs with
  | nil => rfl
  | cons x rest ih => simp [replaceChar, ih, List.append_assoc]

theorem escape_append (xs ys : List Char) :
    escape_drawtext (xs ++ ys) = escape_drawtext xs ++ escape_drawtext ys := by
  unfold escape_drawtext
  rw [replaceChar_append, replaceChar_append, replaceChar_append]

theorem escChar_single (x : Char) : escape_drawtext [x] = escChar x := by
  by_cases h1 : x = '\\'
  · subst h1; decide
  · by_cases h2 : x = ':'
    · subst h2; decide
    · by_cases h3 : x = '\''
      · subst h3; decide
      · simp [escape_drawtext, replaceChar, escChar, h1, h2, h3]

theorem escape_flatMap (cs : List Char) : escape_drawtext cs = cs.flatMap escChar := by
  induction cs with
  | nil => rfl
  | cons x xs ih =>
    have h : escape_drawtext (x :: xs) = escape_drawtext ([x] ++ xs) := rfl
    rw [h, escape_append, escChar_single, ih, List.flatMap_cons]

theorem escChar_count (x : Char) : (escChar x).count '\'' = 0 := by
  by_cases h1 : x = '\\'
  · subst h1; decide
  · by_cases h2 : x = ':'
    · subst h2; decide
    · by_cases h3 : x = '\''
      · subst h3; decide
      · simp [escChar, h1, h2, h3, List.count_cons, List.count_nil]

theorem escape_count (cs : List Char) : (escape_drawtext cs).count '\'' = 0 := by
  rw [escape_flatMap]
  induction cs with
  | nil => rfl
  | cons x xs ih => rw [List.flatMap_cons, List.count_append, escChar_count, ih]

theorem bgOps_filterMap_textOf (fs yA lh : ℤ) (s e : ℚ) (li : ℕ)
    (lines : List (List (List Char))) :
    (bgOps fs yA lh s e li lines).filterMap FilterOp.textOf
      = lines.map (fun lw => escape_drawtext (joinSpace lw)) := by
  induction lines generalizing li with
  | nil => rfl
  | cons lw rest ih => simp [bgOps, List.filterMap_cons, FilterOp.textOf, ih]

theorem fgOps_filterMap_textOf (fs yA lh : ℤ) (s e : ℚ) (li : ℕ)
    (lines : List (List (List Char))) :
    (fgOps fs yA lh s e li lines).filterMap FilterOp.textOf
      = lines.map (fun lw => escape_drawtext (joinSpace lw)) := by
  induction lines generalizing li with
  | nil => rfl
  | cons lw rest ih => simp [fgOps, List.filterMap_cons, FilterOp.textOf, ih]

theorem lineHlOps_filterMap_textOf (fs : ℤ) (s e : ℚ) (N : ℕ) (y : ℤ)
    (ws : List (List Char)) : ∀ (curX : ℚ) (wi : ℕ),
    (lineHlOps fs s e N y curX wi ws).filterMap FilterOp.textOf = [] := by
  induction ws with
  | nil => intro curX wi; rfl
  | cons w rest ih =>
    intro curX wi
    simp [lineHlOps, List.filterMap_cons, FilterOp.textOf, ih]

theorem hlOps_filterMap_textOf (fs videoW yA lh : ℤ) (s e : ℚ) (N : ℕ)
    (lines : List (List (List Char))) : ∀ (li wi : ℕ),
    (hlOps fs videoW yA lh s e N li wi lines).filterMap FilterOp.textOf = [] := by
  induction lines with
  | nil => intro li wi; rfl
  | cons lw rest ih =>
    intro li wi
    rw [show hlOps fs videoW yA lh s e N li wi (lw :: rest)
        = lineHlOps fs s e N (yA + (li : ℤ) * lh)
            ((max 10 (ratTrunc (((videoW : ℚ) - lineWidth fs lw) / 2)) : ℤ) : ℚ) wi lw
          ++ hlOps fs videoW yA lh s e N (li + 1) (wi + lw.length) rest from rfl]
    rw [List.filterMap_append, lineHlOps_filterMap_textOf, ih, List.append_nil]

/-- C10: the drawtext escaping doubles every backslash, backslash-prefixes
every colon, and replaces every ASCII apostrophe with U+2019 (so the result
contains no ASCII apostrophe — its count is 0); and in the caption builder
the texts handed to drawtext operations are exactly the escaped joined
lines: once for the background layer and once for the visible-text layer,
in that order. -/
theorem c10_escape_drawtext :
    (∀ cs : List Char, escape_drawtext cs = cs.flatMap escChar) ∧
    (∀ cs : List Char, (escape_drawtext cs).count '\'' = 0) ∧
    (∀ (videoW videoH : ℤ) (st : CaptionStyle) (c : Caption),
      (captionOps videoW videoH st c).filterMap FilterOp.textOf
        = (capLines videoW videoH st c).map (fun lw => escape_drawtext (joinSpace lw))
          ++ (capLines videoW videoH st c).map (fun lw => escape_drawtext (joinSpace lw))) := by
  refine ⟨escape_flatMap, escape_count, ?_⟩
  intro videoW videoH st c
  by_cases hw : pyWords (pyStrip c.text.data) = []
  · rw [captionOps_eq, if_pos hw]
    unfold capLines
    rw [hw, show wrapLines (resolveFontSize st videoH) ((videoW : ℚ) - 60)
        ([] : List (List Char)) = [] from rfl]
    rfl
  · rw [captionOps_eq, if_neg hw, List.filterMap_append, List.filterMap_append,
      bgOps_filterMap_textOf, fgOps_filterMap_textOf]
    by_cases hg : resolveKaraoke st = true
        ∧ 0 < (pyWords (pyStrip c.text.data)).length ∧ 0 < c.stop - c.start
    · rw [if_pos hg, hlOps_filterMap_textOf, List.append_nil]
    · rw [if_neg hg]
      simp

end VideoExtract
